import Mathlib

/-!
Verification of the ridge-map generator (`src/index.js`).

The development shallowly embeds the numeric and geometric pipeline of the
`RidgeMap` class over exact rationals (`ℚ` stands for JavaScript numbers):

* `rotateOnce` / `rotateN`   — the private `#rotate` quarter-turn helper;
* `getDataGrid`              — the sampling loop of `#getData`, with the
  elevation source and the projection library abstracted as parameters;
* `swapForViewpoint`         — the (ineffective) east/west swap statement of
  `getElevationData`;
* `gridMin`, `rawRows`, `preprocess`, … — the `#preprocess` normalizer;
* `cullRow`, `waterRect`     — the occlusion loop of `generate`;
* `lineDiff`                 — the `#lineDiff` neighbor-difference helper;
* `markRemove`, `removalsLoop`, `lakeCrop` — the lake-flattening stage;
* `paperGetStroke`           — the `#paperGetStroke` top-boundary extractor,
  with the path engine winding query modelled by `isClockwise`.

Polygon regions handled by the external vector engine are modelled as subsets
of the rational plane, with boolean subtraction as set difference.  Divisions
whose divisor can be zero in the source produce non-finite values
(`Infinity`/`NaN`) in JavaScript that poison every later computation; such
computations are embedded as `Option`-valued, `none` standing for a
non-finite (garbage) outcome.
-/

namespace RidgeMap

/-- A plain point as stored in a paper.js segment (`_point._x`, `_point._y`). -/
structure Pt where
  x : ℚ
  y : ℚ
deriving DecidableEq, Inhabited, Repr

/-- A preprocessed elevation point (`{x, y, baseY}` built in `#preprocess`). -/
structure PrePoint where
  x : ℚ
  y : ℚ
  baseY : ℚ
deriving DecidableEq, Inhabited, Repr

/-- A point together with the neighbor difference added by `#lineDiff`. -/
structure DiffPoint where
  x : ℚ
  y : ℚ
  diff : ℚ
deriving DecidableEq, Inhabited, Repr

/-- A point with the `remove` flag added in the lake-flatness stage. -/
structure RemPoint where
  x : ℚ
  y : ℚ
  diff : ℚ
  remove : Bool
deriving DecidableEq, Inhabited, Repr

/-- The cardinal viewpoint option of the constructor. -/
inductive Viewpoint where
  | south
  | west
  | north
  | east
deriving DecidableEq, Repr

/-! ## `#rotate`: clockwise quarter-turns of the elevation matrix -/

/-- One iteration of the loop body of `#rotate`:
`matrix = matrix[0].map((_, index) => matrix.map(row => row[index]).reverse())`.
On an empty matrix `matrix[0]` is `undefined` and the `.map` call throws a
`TypeError`; that crash is embedded as `none`.  An out-of-range `row[index]`
would be `undefined`; it is embedded as `0` and never occurs on the
rectangular grids the theorems quantify over. -/
def rotateOnce (m : List (List ℚ)) : Option (List (List ℚ)) :=
  match m with
  | [] => none
  | r0 :: _ => some ((List.range r0.length).map fun index =>
      (m.map fun row => row.getD index 0).reverse)

/-- `#rotate(matrix, num)`: the loop applying `rotateOnce` `num` times. -/
def rotateN (m : List (List ℚ)) (num : ℕ) : Option (List (List ℚ)) :=
  (List.range num).foldl (fun acc _ => acc.bind rotateOnce) (some m)

/-! ## `#getData`: sampling the elevation source -/

/-- The projected sample position for cell `(i, j)` of the grid, before the
conversion back to geographic coordinates:
`x = pos1[0] + j * xStep`, `y = pos1[1] + i * yStep`. -/
def samplePos (pos1 pos2 : ℚ × ℚ) (num points : ℕ) (i j : ℕ) : ℚ × ℚ :=
  ((pos1.1 + (j : ℚ) * ((pos2.1 - pos1.1) / (points : ℚ))),
   (pos1.2 + (i : ℚ) * ((pos2.2 - pos1.2) / (num : ℚ))))

/-- The sampling loops of `#getData`.  The projection library is abstracted
as `conv` and the elevation source as `lookup`, where `lookup` returns
`none` when the tile cannot be resolved (the `err` callback argument).
The callback resolves `err ? 0 : elevation`, so a failed lookup degrades to
elevation `0` and every cell resolves. -/
def getDataGrid (conv : ℚ × ℚ → ℚ × ℚ) (lookup : ℚ × ℚ → Option ℚ)
    (pos1 pos2 : ℚ × ℚ) (num points : ℕ) : List (List ℚ) :=
  (List.range num).map fun i =>
    (List.range points).map fun j =>
      let point := conv (samplePos pos1 pos2 num points i j)
      -- the tileset takes lat,lng so the pair is swapped at the call site
      match lookup (point.2, point.1) with
      | none => 0
      | some elevation => elevation

/-- The viewpoint-to-rotation-count table of `getElevationData`. -/
def numRotations : Viewpoint → ℕ
  | .south => 0
  | .west => 3
  | .north => 2
  | .east => 1

/-- The east/west branch of `getElevationData` executes
`num, points = points, num;` — a comma expression whose only assignment is
`points = points`, so both variables keep their values in every branch. -/
def swapForViewpoint (v : Viewpoint) (num points : ℕ) : ℕ × ℕ :=
  if v = .east ∨ v = .west then (num, points) else (num, points)

/-- `getElevationData`: sample `num` lines of `points` values, then rotate
the matrix to match the viewpoint. -/
def getElevationData (conv : ℚ × ℚ → ℚ × ℚ) (lookup : ℚ × ℚ → Option ℚ)
    (pos1 pos2 : ℚ × ℚ) (v : Viewpoint) (num points : ℕ) :
    Option (List (List ℚ)) :=
  let np := swapForViewpoint v num points
  rotateN (getDataGrid conv lookup pos1 pos2 np.1 np.2) (numRotations v)

/-! ## `#lineDiff`: the one-neighbor elevation difference -/

/-- `#lineDiff(segments)`: each point receives the absolute `y` difference to
one neighbor.  Index `0` (the `else if` branch) uses the next point when one
exists; every later index uses the previous point; a lone point gets `0`. -/
def lineDiff (segments : List Pt) : List DiffPoint :=
  segments.mapIdx fun i p =>
    { x := p.x, y := p.y,
      diff :=
        if 0 < i then |p.y - (segments.getD (i - 1) default).y|
        else if i < segments.length - 1 then |p.y - (segments.getD (i + 1) default).y|
        else 0 }

/-! ## `#preprocess`: normalizing elevation into canvas coordinates

JavaScript `Math.min(...list)` / `Math.max(...list)` on a nonempty list is
modelled by a fold seeded with the head of the list. -/

/-- Minimum of a list of rationals (`Math.min(...l)` for nonempty `l`). -/
def listMin (l : List ℚ) : ℚ :=
  l.foldl (fun m v => if v < m then v else m) (l.headD 0)

/-- Maximum of a list of rationals (`Math.max(...l)` for nonempty `l`). -/
def listMax (l : List ℚ) : ℚ :=
  l.foldl (fun m v => if m < v then v else m) (l.headD 0)

/-- `values[0][0]`, the seed of the min/max scan of `#preprocess`. -/
def gridSeed (data : List (List ℚ)) : ℚ := (data.headD []).headD 0

/-- The global elevation minimum scan of `#preprocess`
(`if (value < min) min = value` over the flattened grid). -/
def gridMin (data : List (List ℚ)) : ℚ :=
  data.flatten.foldl (fun m v => if v < m then v else m) (gridSeed data)

/-- The global elevation maximum scan of `#preprocess`. -/
def gridMax (data : List (List ℚ)) : ℚ :=
  data.flatten.foldl (fun m v => if m < v then v else m) (gridSeed data)

/-- `numLines` of `#preprocess`. -/
def numLines (data : List (List ℚ)) : ℕ := data.length

/-- `numPoints` of `#preprocess` (`values[0].length`). -/
def numPoints (data : List (List ℚ)) : ℕ := (data.headD []).length

/-- `xInterval = 100 / (numPoints - 1)`. -/
def xInterval (data : List (List ℚ)) : ℚ := 100 / ((numPoints data : ℚ) - 1)

/-- `yInterval = 100 / (numLines - 1)`. -/
def yInterval (data : List (List ℚ)) : ℚ := 100 / ((numLines data : ℚ) - 1)

/-- `scale = 20 / numLines`. -/
def rowScale (data : List (List ℚ)) : ℚ := 20 / (numLines data : ℚ)

/-- The `{x, y, baseY}` object built for cell `(i, j)` holding elevation `v`,
before the final fit-to-canvas remap: the elevation is normalized onto
`[0, verticalRatio]`, compressed by `scale` and stacked on the row base. -/
def rawPoint (data : List (List ℚ)) (vr : ℚ) (i j : ℕ) (v : ℚ) : PrePoint :=
  { x := xInterval data * j,
    y := (i : ℚ) * yInterval data +
      (v - gridMin data) / (gridMax data - gridMin data) * vr * rowScale data,
    baseY := (i : ℚ) * yInterval data }

/-- All rows of raw points, in sampling order. -/
def rawRows (data : List (List ℚ)) (vr : ℚ) : List (List PrePoint) :=
  data.mapIdx fun i row => row.mapIdx fun j v => rawPoint data vr i j v

/-- `allYs`, the `y` values of every raw point. -/
def rawYs (data : List (List ℚ)) (vr : ℚ) : List ℚ :=
  ((rawRows data vr).flatten).map (fun p => p.y)

/-- `minY = Math.min(...allYs)`. -/
def yMin (data : List (List ℚ)) (vr : ℚ) : ℚ := listMin (rawYs data vr)

/-- `maxY = Math.max(...allYs)`. -/
def yMax (data : List (List ℚ)) (vr : ℚ) : ℚ := listMax (rawYs data vr)

/-- The fit-to-canvas remap followed by the top-down flip:
`p = 100 * (p - minY) / (maxY - minY)` and then `p = 100 - p`, applied to
both `y` and `baseY`. -/
def remapFlip (data : List (List ℚ)) (vr : ℚ) (p : PrePoint) : PrePoint :=
  { x := p.x,
    y := 100 - 100 * (p.y - yMin data vr) / (yMax data vr - yMin data vr),
    baseY := 100 -
      100 * (p.baseY - yMin data vr) / (yMax data vr - yMin data vr) }

/-- The returned `oneMeter`:
`1 / (max - min) * verticalRatio`, then `* scale`, then
`* 100 / (maxY - minY)`. -/
def oneMeterOut (data : List (List ℚ)) (vr : ℚ) : ℚ :=
  1 / (gridMax data - gridMin data) * vr * rowScale data * 100 /
    (yMax data vr - yMin data vr)

/-- `#preprocess(verticalRatio)`.  Besides the remap pipeline the source
performs three divisions with data-dependent divisors — `max - min`,
`numPoints - 1` / `numLines - 1`, and `maxY - minY` — none of which is
guarded; a zero divisor produces `Infinity`/`NaN` coordinates in JavaScript
(and `values[0][0]` on an empty grid reads `undefined`), embedded here as
`none`.  The returned rows are reversed (`values.reverse()`), so the first
returned row is the last sampled row. -/
def preprocess (data : List (List ℚ)) (vr : ℚ) :
    Option (List (List PrePoint) × ℚ) :=
  if data = [] then none
  else if data.headD [] = [] then none
  else if gridMax data - gridMin data = 0 then none
  else if numPoints data = 1 then none
  else if numLines data = 1 then none
  else if yMax data vr - yMin data vr = 0 then none
  else some
    (((rawRows data vr).map fun row => row.map (remapFlip data vr)).reverse,
     oneMeterOut data vr)

/-! ## Theorems: C7, C9, C10 -/

/-- C7: the lake-flatness difference inspects exactly one adjacent neighbor
per point: index `0` uses `|y[0] - y[1]|` (when a second point exists), every
index `i > 0` — the last point included — uses `|y[i] - y[i-1]|`, and a
single-point sequence gets difference `0`. -/
theorem lineDiff_one_neighbor (segments : List Pt) :
    (2 ≤ segments.length →
      ((lineDiff segments).getD 0 default).diff =
        |(segments.getD 0 default).y - (segments.getD 1 default).y|) ∧
    (∀ i : ℕ, 0 < i → i < segments.length →
      ((lineDiff segments).getD i default).diff =
        |(segments.getD i default).y - (segments.getD (i - 1) default).y|) ∧
    (segments.length = 1 →
      ((lineDiff segments).getD 0 default).diff = 0) := by
  have key : ∀ (i : ℕ) (h : i < segments.length),
      (lineDiff segments).getD i default =
        { x := segments[i].x, y := segments[i].y,
          diff :=
            if 0 < i then |segments[i].y - (segments.getD (i - 1) default).y|
            else if i < segments.length - 1 then
              |segments[i].y - (segments.getD (i + 1) default).y|
            else 0 } := by
    intro i h
    rw [List.getD_eq_getElem _ _ (by simpa [lineDiff] using h)]
    simp only [lineDiff, List.getElem_mapIdx]
  refine ⟨fun h2 => ?_, fun i hi hilen => ?_, fun h1 => ?_⟩
  · rw [key 0 (by omega)]
    dsimp only
    rw [if_neg (lt_irrefl 0), if_pos (show 0 < segments.length - 1 by omega),
      List.getD_eq_getElem segments default (show 0 < segments.length by omega)]
  · rw [key i hilen]
    dsimp only
    rw [if_pos hi, List.getD_eq_getElem segments default hilen]
  · rw [key 0 (by omega)]
    dsimp only
    rw [if_neg (lt_irrefl 0), if_neg (show ¬ 0 < segments.length - 1 by omega)]

/-- Concrete check of `lineDiff_one_neighbor` on a three-point line and on a
single point. -/
theorem lineDiff_one_neighbor_witness :
    ((lineDiff [⟨0, 0⟩, ⟨1, 5⟩, ⟨2, 3⟩]).getD 0 default).diff =
      |(([⟨0, 0⟩, ⟨1, 5⟩, ⟨2, 3⟩] : List Pt).getD 0 default).y -
        (([⟨0, 0⟩, ⟨1, 5⟩, ⟨2, 3⟩] : List Pt).getD 1 default).y| ∧
    ((lineDiff [⟨0, 0⟩, ⟨1, 5⟩, ⟨2, 3⟩]).getD 2 default).diff =
      |(([⟨0, 0⟩, ⟨1, 5⟩, ⟨2, 3⟩] : List Pt).getD 2 default).y -
        (([⟨0, 0⟩, ⟨1, 5⟩, ⟨2, 3⟩] : List Pt).getD 1 default).y| ∧
    ((lineDiff [(⟨4, 9⟩ : Pt)]).getD 0 default).diff = 0 :=
  ⟨(lineDiff_one_neighbor [⟨0, 0⟩, ⟨1, 5⟩, ⟨2, 3⟩]).1 (by simp),
   (lineDiff_one_neighbor [⟨0, 0⟩, ⟨1, 5⟩, ⟨2, 3⟩]).2.1 2 (by omega) (by simp),
   (lineDiff_one_neighbor [⟨4, 9⟩]).2.2 (by simp)⟩

/-- C9: a failed elevation lookup degrades to a `0` cell and is never
propagated: the sampled grid always has `num` rows of `points` columns, and
any cell whose lookup errors holds `0`. -/
theorem getData_failsoft (conv : ℚ × ℚ → ℚ × ℚ) (lookup : ℚ × ℚ → Option ℚ)
    (pos1 pos2 : ℚ × ℚ) (num points : ℕ) :
    (getDataGrid conv lookup pos1 pos2 num points).length = num ∧
    (∀ row ∈ getDataGrid conv lookup pos1 pos2 num points,
      row.length = points) ∧
    (∀ i j : ℕ, i < num → j < points →
      lookup ((conv (samplePos pos1 pos2 num points i j)).2,
              (conv (samplePos pos1 pos2 num points i j)).1) = none →
      ((getDataGrid conv lookup pos1 pos2 num points).getD i []).getD j 0
        = 0) := by
  refine ⟨by simp [getDataGrid], ?_, ?_⟩
  · intro row hrow
    simp only [getDataGrid, List.mem_map, List.mem_range] at hrow
    obtain ⟨i, -, rfl⟩ := hrow
    simp
  · intro i j hi hj hnone
    have hrow : (getDataGrid conv lookup pos1 pos2 num points).getD i [] =
        (List.range points).map fun j =>
          let point := conv (samplePos pos1 pos2 num points i j)
          match lookup (point.2, point.1) with
          | none => 0
          | some elevation => elevation := by
      rw [List.getD_eq_getElem _ _ (by simpa [getDataGrid] using hi)]
      simp only [getDataGrid, List.getElem_map, List.getElem_range]
    rw [hrow, List.getD_eq_getElem _ _ (by simpa using hj)]
    simp only [List.getElem_map, List.getElem_range]
    rw [hnone]

/-- Concrete check of `getData_failsoft` with a source that errors at the
sampled coordinate. -/
theorem getData_failsoft_witness :
    ((getDataGrid id (fun c => if c = (0, 0) then none else some 3)
        (0, 0) (1, 1) 1 1).getD 0 []).getD 0 0 = 0 :=
  (getData_failsoft id (fun c => if c = (0, 0) then none else some 3)
      (0, 0) (1, 1) 1 1).2.2 0 0 (by omega) (by omega)
    (by norm_num [samplePos])

/-- C10: the east/west swap statement is a no-op comma expression, so the
sampler receives the same `num` and `points` for all four viewpoints and
produces `num` rows of `points` columns before rotation. -/
theorem swap_noop_dims (v : Viewpoint) (num points : ℕ)
    (conv : ℚ × ℚ → ℚ × ℚ) (lookup : ℚ × ℚ → Option ℚ) (pos1 pos2 : ℚ × ℚ) :
    swapForViewpoint v num points = (num, points) ∧
    (getDataGrid conv lookup pos1 pos2
        (swapForViewpoint v num points).1
        (swapForViewpoint v num points).2).length = num ∧
    (∀ row ∈ getDataGrid conv lookup pos1 pos2
        (swapForViewpoint v num points).1
        (swapForViewpoint v num points).2,
      row.length = points) := by
  have hswap : swapForViewpoint v num points = (num, points) := by
    unfold swapForViewpoint
    split <;> rfl
  refine ⟨hswap, ?_, ?_⟩
  · rw [hswap]
    simp [getDataGrid]
  · rw [hswap]
    intro row hrow
    simp only [getDataGrid, List.mem_map, List.mem_range] at hrow
    obtain ⟨i, -, rfl⟩ := hrow
    simp

/-- Concrete check of `swap_noop_dims` for the east viewpoint. -/
theorem swap_noop_dims_witness :
    swapForViewpoint .east 80 300 = (80, 300) ∧
    (getDataGrid id (fun _ => some 1) (0, 0) (1, 1)
        (swapForViewpoint .east 80 300).1
        (swapForViewpoint .east 80 300).2).length = 80 :=
  ⟨(swap_noop_dims .east 80 300 id (fun _ => some 1) (0, 0) (1, 1)).1,
   (swap_noop_dims .east 80 300 id (fun _ => some 1) (0, 0) (1, 1)).2.1⟩

/-! ## Theorems: C8 -/

/-- A nonempty rectangular grid rotates to a grid of swapped dimensions with
entry `(j, i)` taken from entry `(r - 1 - i, j)` of the source. -/
lemma rotateOnce_spec (m : List (List ℚ)) (r c : ℕ) (hr : m.length = r)
    (_hc0 : 0 < c) (hrect : ∀ row ∈ m, row.length = c) (hr0 : 0 < r) :
    ∃ m2, rotateOnce m = some m2 ∧ m2.length = c ∧
      (∀ row ∈ m2, row.length = r) ∧
      ∀ j i : ℕ, j < c → i < r →
        (m2.getD j []).getD i 0 = (m.getD (r - 1 - i) []).getD j 0 := by
  obtain ⟨r0, rest, rfl⟩ : ∃ r0 rest, m = r0 :: rest := by
    cases m with
    | nil => simp at hr; omega
    | cons a l => exact ⟨a, l, rfl⟩
  have h0 : r0.length = c := hrect r0 (List.mem_cons_self _ _)
  refine ⟨_, rfl, by simp [h0], ?_, ?_⟩
  · intro row hrow
    simp only [List.mem_map, List.mem_range] at hrow
    obtain ⟨j, -, rfl⟩ := hrow
    simpa using hr
  · intro j i hj hi
    have hjlen : j < ((List.range r0.length).map fun index =>
        ((r0 :: rest).map fun row => row.getD index 0).reverse).length := by
      simpa [h0] using hj
    rw [List.getD_eq_getElem _ _ hjlen]
    simp only [List.getElem_map, List.getElem_range]
    have hilen : i < (((r0 :: rest).map fun row => row.getD j 0).reverse).length := by
      have hlen := hr
      simp only [List.length_cons] at hlen
      simpa using (by omega : i < rest.length + 1)
    rw [List.getD_eq_getElem _ _ hilen]
    rw [List.getElem_reverse]
    simp only [List.getElem_map, List.length_map]
    rw [List.getD_eq_getElem _ _ (by omega : r - 1 - i < (r0 :: rest).length)]
    congr 2
    omega

/-- Two grids agreeing in dimensions and entries are equal. -/
lemma grid_ext (A B : List (List ℚ)) (hlen : A.length = B.length)
    (hrow : ∀ i : ℕ, i < A.length → (A.getD i []).length = (B.getD i []).length)
    (hent : ∀ i j : ℕ, i < A.length → j < (A.getD i []).length →
      (A.getD i []).getD j 0 = (B.getD i []).getD j 0) : A = B := by
  apply List.ext_getElem hlen
  intro n h1 h2
  apply List.ext_getElem
  · have := hrow n h1
    rwa [List.getD_eq_getElem _ _ h1, List.getD_eq_getElem _ _ h2] at this
  · intro k hk1 hk2
    have hk : k < (A.getD n []).length := by rwa [List.getD_eq_getElem _ _ h1]
    have := hent n k h1 hk
    rwa [List.getD_eq_getElem _ _ h1, List.getD_eq_getElem _ _ h2,
      List.getD_eq_getElem _ _ hk1, List.getD_eq_getElem _ _ hk2] at this

/-- C8 (amended): four clockwise quarter-turns restore any rectangular grid
that has at least one row and at least one column. -/
theorem rotate_four_eq_self (m : List (List ℚ)) (c : ℕ) (hm : 0 < m.length)
    (hc : 0 < c) (hrect : ∀ row ∈ m, row.length = c) :
    rotateN m 4 = some m := by
  obtain ⟨m1, e1, l1, rect1, ent1⟩ := rotateOnce_spec m m.length c rfl hc hrect hm
  obtain ⟨m2, e2, l2, rect2, ent2⟩ := rotateOnce_spec m1 c m.length l1 hm rect1 hc
  obtain ⟨m3, e3, l3, rect3, ent3⟩ := rotateOnce_spec m2 m.length c l2 hc rect2 hm
  obtain ⟨m4, e4, l4, rect4, ent4⟩ := rotateOnce_spec m3 c m.length l3 hm rect3 hc
  have hchain : rotateN m 4 = some m4 := by
    have hfold : rotateN m 4 =
        ((((some m).bind rotateOnce).bind rotateOnce).bind
          rotateOnce).bind rotateOnce := rfl
    rw [hfold, Option.some_bind, e1, Option.some_bind, e2, Option.some_bind,
      e3, Option.some_bind, e4]
  have hent : ∀ j i : ℕ, j < m.length → i < c →
      (m4.getD j []).getD i 0 = (m.getD j []).getD i 0 := by
    intro j i hj hi
    rw [ent4 j i hj hi, ent3 (c - 1 - i) j (by omega) hj,
      ent2 (m.length - 1 - j) (c - 1 - i) (by omega) (by omega),
      show c - 1 - (c - 1 - i) = i by omega,
      ent1 i (m.length - 1 - j) hi (by omega),
      show m.length - 1 - (m.length - 1 - j) = j by omega]
  rw [hchain]
  congr 1
  apply grid_ext m4 m (by omega)
  · intro i hi
    have hi4 : i < m4.length := hi
    have him : i < m.length := by omega
    rw [List.getD_eq_getElem _ _ hi4, List.getD_eq_getElem _ _ him,
      rect4 _ (List.getElem_mem _), hrect _ (List.getElem_mem _)]
  · intro i j hi hj
    have hjc : j < c := by
      have hi4 : i < m4.length := hi
      rwa [List.getD_eq_getElem _ _ hi4, rect4 _ (List.getElem_mem _)] at hj
    exact hent i j (by omega) hjc

/-- Concrete check of `rotate_four_eq_self` on a 2 by 2 grid. -/
theorem rotate_four_eq_self_witness :
    rotateN [[1, 2], [3, 4]] 4 = some [[1, 2], [3, 4]] :=
  rotate_four_eq_self [[1, 2], [3, 4]] 2 (by decide) (by decide) (by decide)

/-- C8 counterexample: on the rectangular grid `[[]]` (one row, zero
columns) four quarter-turns do not restore the grid — `#rotate` collapses it
to `[]` after one turn and then throws on `matrix[0]`, embedded as `none`. -/
theorem rotate_four_cex : rotateN ([[]] : List (List ℚ)) 4 ≠ some [[]] := by
  decide

/-! ## Theorems: C1, C2 -/

/-- The running-minimum fold never exceeds its seed. -/
lemma foldlMin_le_init (l : List ℚ) (a : ℚ) :
    l.foldl (fun m v => if v < m then v else m) a ≤ a := by
  induction l generalizing a with
  | nil => simp
  | cons b t ih =>
    simp only [List.foldl_cons]
    refine le_trans (ih _) ?_
    split <;> linarith

/-- The running-minimum fold never exceeds any list element. -/
lemma foldlMin_le_mem (l : List ℚ) (a : ℚ) {x : ℚ} (hx : x ∈ l) :
    l.foldl (fun m v => if v < m then v else m) a ≤ x := by
  induction l generalizing a with
  | nil => cases hx
  | cons b t ih =>
    simp only [List.foldl_cons]
    rcases List.mem_cons.1 hx with rfl | hx2
    · refine le_trans (foldlMin_le_init _ _) ?_
      split <;> linarith
    · exact ih _ hx2

/-- The running-maximum fold is at least its seed. -/
lemma le_foldlMax_init (l : List ℚ) (a : ℚ) :
    a ≤ l.foldl (fun m v => if m < v then v else m) a := by
  induction l generalizing a with
  | nil => simp
  | cons b t ih =>
    simp only [List.foldl_cons]
    refine le_trans ?_ (ih _)
    split <;> linarith

/-- The running-maximum fold is at least any list element. -/
lemma le_foldlMax_mem (l : List ℚ) (a : ℚ) {x : ℚ} (hx : x ∈ l) :
    x ≤ l.foldl (fun m v => if m < v then v else m) a := by
  induction l generalizing a with
  | nil => cases hx
  | cons b t ih =>
    simp only [List.foldl_cons]
    rcases List.mem_cons.1 hx with rfl | hx2
    · refine le_trans ?_ (le_foldlMax_init _ _)
      split <;> linarith
    · exact ih _ hx2

/-- C1 (evidence for the failing input): on a flat grid (`max == min`) the
normalizer computes `1 / (max - min)` with a zero divisor — there is no
degenerate-case guard, so instead of `oneMeter = 0` with all heights `0` the
output is non-finite garbage, embedded as `none`. -/
theorem preprocess_flat_divzero : preprocess [[5, 5], [5, 5]] 40 = none := by
  norm_num [preprocess, gridMax, gridMin, gridSeed, List.cons_ne_nil]

/-- C2 (amended): for a non-degenerate grid — at least 2 rows and 2 columns
and a positive elevation range — whose raw canvas `y` values are not all
equal, `#preprocess` succeeds, every output `y` lies in `[0, 100]`, and the
first returned row is the processed version of the input's last row (the
rotation step puts the nearest row first and the normalizer reverses the row
order).  The original claim also put every `baseY` in `[0, 100]` and needed
no spread hypothesis; both fail on the code (see the counterexample). -/
theorem preprocess_bounds_reversed (data : List (List ℚ)) (vr : ℚ) (c : ℕ)
    (hrows : 2 ≤ data.length) (hc : 2 ≤ c)
    (hrect : ∀ row ∈ data, row.length = c)
    (helev : gridMin data < gridMax data)
    (hspan : yMin data vr < yMax data vr) :
    ∃ out oneMeter, preprocess data vr = some (out, oneMeter) ∧
      (∀ row ∈ out, ∀ p ∈ row, 0 ≤ p.y ∧ p.y ≤ 100) ∧
      out.head? = some (((data.getLastD []).mapIdx fun j v =>
        rawPoint data vr (data.length - 1) j v).map (remapFlip data vr)) := by
  have hne : data ≠ [] := by
    intro h
    rw [h] at hrows
    simp at hrows
  have hhead : (data.headD []).length = c := by
    cases data with
    | nil => exact absurd rfl hne
    | cons a t => exact hrect a (List.mem_cons_self _ _)
  have hheadne : data.headD [] ≠ [] := by
    intro h
    rw [h] at hhead
    simp at hhead
    omega
  refine ⟨((rawRows data vr).map fun row => row.map (remapFlip data vr)).reverse,
    oneMeterOut data vr, ?_, ?_, ?_⟩
  · unfold preprocess
    rw [if_neg hne, if_neg hheadne,
      if_neg (sub_ne_zero.2 (ne_of_gt helev)),
      if_neg (show numPoints data ≠ 1 by unfold numPoints; omega),
      if_neg (show numLines data ≠ 1 by unfold numLines; omega),
      if_neg (sub_ne_zero.2 (ne_of_gt hspan))]
  · intro row hrow p hp
    rw [List.mem_reverse] at hrow
    obtain ⟨row0, hrow0, rfl⟩ := List.mem_map.1 hrow
    obtain ⟨q, hq, rfl⟩ := List.mem_map.1 hp
    have hy : q.y ∈ rawYs data vr :=
      List.mem_map.2 ⟨q, List.mem_flatten.2 ⟨row0, hrow0, hq⟩, rfl⟩
    have h1 : yMin data vr ≤ q.y := by
      unfold yMin listMin
      exact foldlMin_le_mem _ _ hy
    have h2 : q.y ≤ yMax data vr := by
      unfold yMax listMax
      exact le_foldlMax_mem _ _ hy
    have hd0 : 0 < yMax data vr - yMin data vr := by linarith
    unfold remapFlip
    dsimp only
    constructor
    · have hle : 100 * (q.y - yMin data vr) / (yMax data vr - yMin data vr)
          ≤ 100 := by
        rw [div_le_iff₀ hd0]
        linarith
      linarith
    · have hge : 0 ≤ 100 * (q.y - yMin data vr) / (yMax data vr - yMin data vr) :=
        div_nonneg (by linarith) (le_of_lt hd0)
      linarith
  · rw [List.head?_reverse, List.getLast?_eq_getElem?]
    have hlen : ((rawRows data vr).map fun row =>
        row.map (remapFlip data vr)).length = data.length := by
      simp [rawRows]
    rw [hlen]
    have hidx : data.length - 1 < ((rawRows data vr).map fun row =>
        row.map (remapFlip data vr)).length := by
      rw [hlen]; omega
    rw [List.getElem?_eq_getElem hidx]
    have hb : data.length - 1 < data.length := by omega
    have hlast : data.getLastD [] = data[data.length - 1] := by
      rw [List.getLastD_eq_getLast?, List.getLast?_eq_getElem?,
        List.getElem?_eq_getElem (by omega : data.length - 1 < data.length)]
      rfl
    simp only [List.getElem_map, rawRows, List.getElem_mapIdx, hlast]

/-- Concrete check of `preprocess_bounds_reversed` on a 2 by 2 grid with
elevation range `[0, 1]`. -/
theorem preprocess_bounds_reversed_witness :
    ∃ out oneMeter, preprocess [[0, 0], [1, 0]] 40 = some (out, oneMeter) ∧
      (∀ row ∈ out, ∀ p ∈ row, 0 ≤ p.y ∧ p.y ≤ 100) ∧
      out.head? = some (((([[0, 0], [1, 0]] : List (List ℚ)).getLastD
        []).mapIdx fun j v =>
        rawPoint [[0, 0], [1, 0]] 40 (([[0, 0], [1, 0]] : List (List ℚ)).length - 1)
          j v).map (remapFlip [[0, 0], [1, 0]] 40)) :=
  preprocess_bounds_reversed [[0, 0], [1, 0]] 40 2 (by simp) (by omega)
    (by decide)
    (by norm_num [gridMin, gridMax, gridSeed])
    (by norm_num [yMin, yMax, rawYs, rawRows, rawPoint, listMin, listMax,
      gridMin, gridMax, gridSeed, xInterval, yInterval, rowScale, numLines,
      numPoints])

/-- C2 counterexample: the grid `[[1, 1], [0, 0]]` with `verticalRatio = 40`
is non-degenerate (2 rows, 2 columns, `max > min`), yet the normalizer emits
a `baseY` of `400/3 > 100`: the fit-to-canvas remap rescales by the spread
of the `y` values only, and a `baseY` below the smallest `y` is pushed
outside `[0, 100]`. -/
theorem preprocess_baseY_escapes :
    100 < ((((preprocess [[1, 1], [0, 0]] 40).getD
      ([], 0)).1.getD 1 []).getD 0 default).baseY := by
  norm_num [preprocess, rawRows, rawPoint, remapFlip, gridMin, gridMax,
    gridSeed, listMin, listMax, yMin, yMax, rawYs, numLines, numPoints,
    xInterval, yInterval, rowScale, oneMeterOut, List.cons_ne_nil]

/-! ## `generate`: occlusion culling and lake flattening

The external vector engine fills polygons and subtracts them; a filled
polygon is modelled as a subset of the rational plane and
`Path.subtract` as set difference. -/

/-- A filled region of the canvas plane. -/
abbrev Region := Set (ℚ × ℚ)

/-- The filled region of an axis-aligned rectangle given by two opposite
corner coordinates (the fill is orientation-independent). -/
def quadRect (x1 x2 y1 y2 : ℚ) : Region :=
  {p | min x1 x2 ≤ p.1 ∧ p.1 ≤ max x1 x2 ∧ min y1 y2 ≤ p.2 ∧ p.2 ≤ max y1 y2}

/-- The water path of `generate`: segments
`[0, waterYPos], [width, waterYPos], [width, height], [0, height]`. -/
def waterRect (width height waterYPos : ℚ) : Region :=
  quadRect 0 width waterYPos height

/-- `waterYPos = (values[i][0].baseY - oneMeter * waterNTile) * height / 100`. -/
def waterYPos (values : List (List PrePoint))
    (oneMeter waterNTile height : ℚ) (i : ℕ) : ℚ :=
  (((values.getD i []).getD 0 default).baseY - oneMeter * waterNTile) *
    height / 100

/-- The per-row culling step of `generate`: starting from `srcPaths[i]`,
subtract `srcPaths[j]` for every `j > i` in order, then subtract the water
rectangle when `waterNTile > 0`. -/
def cullRow (srcPaths : List Region) (values : List (List PrePoint))
    (oneMeter waterNTile width height : ℚ) (i : ℕ) : Region :=
  let crop := (srcPaths.drop (i + 1)).foldl (fun c p => c \ p)
    (srcPaths.getD i ∅)
  if 0 < waterNTile then
    crop \ waterRect width height (waterYPos values oneMeter waterNTile height i)
  else crop

/-- The full-canvas-height removal slice of the lake-flatness stage:
segments `[start.x, 0], [end.x, 0], [end.x, height], [start.x, height]`. -/
def sliceRect (sx ex height : ℚ) : Region := quadRect sx ex 0 height

/-- The `remove` mark: `el.diff < lakeFlatness * oneMeter`. -/
def markRemove (lakeFlatness oneMeter : ℚ) (l : List DiffPoint) :
    List RemPoint :=
  l.map fun e =>
    { x := e.x, y := e.y, diff := e.diff,
      remove := decide (e.diff < lakeFlatness * oneMeter) }

/-- The body of the removal scan loop of `generate` at index `i`: push
`curr` on `!curr.remove && next.remove` (a run start) and push `next` on
`curr.remove && !next.remove` (a run end). -/
def removalStep (sd : List RemPoint) (acc : List RemPoint) (i : ℕ) :
    List RemPoint :=
  let curr := sd.getD i default
  let next := sd.getD (i + 1) default
  let acc1 :=
    if curr.remove = false ∧ next.remove = true then acc ++ [curr] else acc
  if curr.remove = true ∧ next.remove = false then acc1 ++ [next] else acc1

/-- The removal-boundary scan of `generate`: an implicit start when the
first point is marked, then the scan over all adjacent pairs, and finally
the last point as a closing boundary when the count is odd. -/
def removalsLoop (sd : List RemPoint) : List RemPoint :=
  let start := if (sd.getD 0 default).remove then [sd.getD 0 default] else []
  let scanned := (List.range (sd.length - 1)).foldl (removalStep sd) start
  if scanned.length % 2 = 1 then scanned ++ [sd.getLastD default] else scanned

/-- Restatement of the removal boundaries following the specification text:
the boundary contribution of the adjacent pair at `(i, i+1)` is the start
point on a non-flat-to-flat transition and the end point on a
flat-to-non-flat transition. -/
def transitionBoundary (sd : List RemPoint) (i : ℕ) : List RemPoint :=
  (if (sd.getD i default).remove = false ∧ (sd.getD (i + 1) default).remove = true
    then [sd.getD i default] else []) ++
  (if (sd.getD i default).remove = true ∧ (sd.getD (i + 1) default).remove = false
    then [sd.getD (i + 1) default] else [])

/-- Restatement of the full boundary list following the specification text:
an implicit run-start at index 0 when the sequence starts flat, the
transition boundaries in order, and the last point appended when the total
count is odd. -/
def removalsSpec (sd : List RemPoint) : List RemPoint :=
  let B := (if (sd.getD 0 default).remove then [sd.getD 0 default] else []) ++
    (List.range (sd.length - 1)).flatMap (transitionBoundary sd)
  if B.length % 2 = 1 then B ++ [sd.getLastD default] else B

/-- The subtraction loop of the lake-flatness stage: for
`j = 0, 2, 4, ...` subtract the full-height slice spanned by the pair
`(removals[j], removals[j+1])`. -/
def lakeCrop (height : ℚ) (layer : Region) (sd : List RemPoint) : Region :=
  let rem := removalsLoop sd
  (List.range ((rem.length + 1) / 2)).foldl (fun crop j =>
    crop \ sliceRect (rem.getD (2 * j) default).x
      (rem.getD (2 * j + 1) default).x height) layer

/-! ## Theorems: C3, C6 -/

/-- Iterated set difference subtracts the union. -/
lemma foldl_sdiff_eq (l : List Region) (s : Region) :
    l.foldl (fun c p => c \ p) s = s \ ⋃ t ∈ l, t := by
  induction l generalizing s with
  | nil => simp
  | cons a tl ih =>
    simp only [List.foldl_cons, ih]
    ext x
    simp only [Set.mem_diff, Set.mem_iUnion, List.mem_cons, exists_prop]
    constructor
    · rintro ⟨⟨hxs, hxa⟩, hrest⟩
      refine ⟨hxs, ?_⟩
      rintro ⟨t, rfl | ht, hxt⟩
      · exact hxa hxt
      · exact hrest ⟨t, ht, hxt⟩
    · rintro ⟨hxs, hnone⟩
      exact ⟨⟨hxs, fun hxa => hnone ⟨a, Or.inl rfl, hxa⟩⟩,
        fun ⟨t, ht, hxt⟩ => hnone ⟨t, Or.inr ht, hxt⟩⟩

/-- Iterated set difference over an index range subtracts the indexed union. -/
lemma foldl_sdiff_range (r : ℕ → Region) (n : ℕ) (s : Region) :
    (List.range n).foldl (fun c j => c \ r j) s =
      s \ ⋃ j ∈ {j : ℕ | j < n}, r j := by
  have hmap : (List.range n).foldl (fun c j => c \ r j) s =
      ((List.range n).map r).foldl (fun c p => c \ p) s := by
    rw [List.foldl_map]
  rw [hmap, foldl_sdiff_eq]
  ext x
  simp only [Set.mem_diff, Set.mem_iUnion, List.mem_map, List.mem_range,
    Set.mem_setOf_eq, exists_prop]
  constructor
  · rintro ⟨hxs, hnone⟩
    refine ⟨hxs, ?_⟩
    rintro ⟨j, hj, hxj⟩
    exact hnone ⟨r j, ⟨j, hj, rfl⟩, hxj⟩
  · rintro ⟨hxs, hnone⟩
    refine ⟨hxs, ?_⟩
    rintro ⟨t, ⟨j, hj, rfl⟩, hxt⟩
    exact hnone ⟨j, hj, hxt⟩

/-- C3: the visible region of row `i` is the row's original polygon minus
the union of the original (never already-culled) polygons of the strictly
nearer rows `j > i`, further minus the water rectangle when
`waterNTile > 0`; no row `j ≤ i` is ever subtracted. -/
theorem cullRow_eq_diff_union (srcPaths : List Region)
    (values : List (List PrePoint)) (oneMeter waterNTile width height : ℚ)
    (i : ℕ) :
    cullRow srcPaths values oneMeter waterNTile width height i =
      (srcPaths.getD i ∅ \
        ⋃ j ∈ {j : ℕ | i < j ∧ j < srcPaths.length}, srcPaths.getD j ∅) \
      (if 0 < waterNTile then
        waterRect width height (waterYPos values oneMeter waterNTile height i)
      else ∅) := by
  have hU : (⋃ t ∈ srcPaths.drop (i + 1), t) =
      ⋃ j ∈ {j : ℕ | i < j ∧ j < srcPaths.length}, srcPaths.getD j ∅ := by
    ext x
    simp only [Set.mem_iUnion, Set.mem_setOf_eq, exists_prop]
    constructor
    · rintro ⟨t, ht, hx⟩
      obtain ⟨k, hk, rfl⟩ := List.mem_iff_getElem.1 ht
      have hkl : i + 1 + k < srcPaths.length := by
        have := hk
        rw [List.length_drop] at this
        omega
      rw [List.getElem_drop] at hx
      refine ⟨i + 1 + k, ⟨by omega, hkl⟩, ?_⟩
      rwa [List.getD_eq_getElem _ _ hkl]
    · rintro ⟨j, ⟨h1, h2⟩, hx⟩
      rw [List.getD_eq_getElem _ _ h2] at hx
      refine ⟨srcPaths[j], List.mem_iff_getElem.2
        ⟨j - (i + 1), by rw [List.length_drop]; omega, ?_⟩, hx⟩
      rw [List.getElem_drop]
      congr 1
      omega
  unfold cullRow
  rw [foldl_sdiff_eq, hU]
  split
  · rfl
  · simp

/-- Pushing one scan step into an append. -/
lemma removalStep_eq (sd : List RemPoint) (acc : List RemPoint) (i : ℕ) :
    removalStep sd acc i = acc ++ transitionBoundary sd i := by
  unfold removalStep transitionBoundary
  dsimp only
  split <;> split <;> simp [*]

/-- C6: the removal boundaries recorded by `generate` are exactly those
described by the specification — implicit start at index 0 when the first
point is flat, a boundary at every flatness transition, and the last point
appended when the count is odd — the final boundary list always pairs up
evenly, the flat mark is exactly `diff < lakeFlatness * oneMeter`, and the
flattened region is the layer minus the union of the full-height slices of
the consecutive pairs. -/
theorem lake_flatten_runs (lakeFlatness oneMeter height : ℚ) (layer : Region)
    (l : List DiffPoint) :
    (∀ e ∈ markRemove lakeFlatness oneMeter l,
      e.remove = true ↔ e.diff < lakeFlatness * oneMeter) ∧
    removalsLoop (markRemove lakeFlatness oneMeter l) =
      removalsSpec (markRemove lakeFlatness oneMeter l) ∧
    (removalsLoop (markRemove lakeFlatness oneMeter l)).length % 2 = 0 ∧
    lakeCrop height layer (markRemove lakeFlatness oneMeter l) =
      layer \ ⋃ j ∈ {j : ℕ |
        j < ((removalsLoop (markRemove lakeFlatness oneMeter l)).length + 1) / 2},
        sliceRect
          ((removalsLoop (markRemove lakeFlatness oneMeter l)).getD
            (2 * j) default).x
          ((removalsLoop (markRemove lakeFlatness oneMeter l)).getD
            (2 * j + 1) default).x height := by
  set sd := markRemove lakeFlatness oneMeter l with hsd
  have hfold : ∀ (s : List RemPoint) (ls : List ℕ) (init : List RemPoint),
      ls.foldl (removalStep s) init = init ++ ls.flatMap (transitionBoundary s) := by
    intro s ls
    induction ls with
    | nil => intro init; simp
    | cons a t ih =>
      intro init
      rw [List.foldl_cons, removalStep_eq, ih, List.flatMap_cons,
        List.append_assoc]
  have hloop : ∀ s : List RemPoint, removalsLoop s = removalsSpec s := by
    intro s
    simp only [removalsLoop, removalsSpec]
    rw [hfold]
  have hparity : ∀ (b : List RemPoint) (x : RemPoint),
      (if b.length % 2 = 1 then b ++ [x] else b).length % 2 = 0 := by
    intro b x
    split
    · rename_i h
      simp only [List.length_append, List.length_cons, List.length_nil]
      omega
    · rename_i h
      omega
  have heven : (removalsLoop sd).length % 2 = 0 := by
    simp only [removalsLoop]
    exact hparity _ _
  refine ⟨?_, hloop sd, heven, ?_⟩
  · intro e he
    rw [hsd] at he
    obtain ⟨d, -, rfl⟩ := List.mem_map.1 he
    dsimp only
    simp
  · simp only [lakeCrop]
    rw [foldl_sdiff_range]

/-- Concrete check of `lake_flatten_runs`: a two-point boundary whose first
point is flat and whose second is not. -/
theorem lake_flatten_runs_witness :
    ((markRemove 1 1 [⟨0, 0, 0⟩, ⟨1, 0, 2⟩]).getD 0 default).remove = true ∧
    removalsLoop (markRemove 1 1 [⟨0, 0, 0⟩, ⟨1, 0, 2⟩]) =
      removalsSpec (markRemove 1 1 [⟨0, 0, 0⟩, ⟨1, 0, 2⟩]) ∧
    (removalsLoop (markRemove 1 1 [⟨0, 0, 0⟩, ⟨1, 0, 2⟩])).length % 2 = 0 :=
  ⟨by norm_num [markRemove], (lake_flatten_runs 1 1 5 Set.univ
      [⟨0, 0, 0⟩, ⟨1, 0, 2⟩]).2.1,
    (lake_flatten_runs 1 1 5 Set.univ [⟨0, 0, 0⟩, ⟨1, 0, 2⟩]).2.2.1⟩

/-! ## `#paperGetStroke`: extracting the top boundary of a polygon -/

/-- `#round(num, 2)`: `Math.round(num * 100) / 100`, with `Math.round`
rounding half-up (`⌊x + 1/2⌋`). -/
def jsRound2 (q : ℚ) : ℚ := (⌊q * 100 + 1 / 2⌋ : ℤ) / 100

/-- The scan condition replacing the running minimum: the candidate is more
top-left (`currXRound < minXRound`, ties broken by `currYRound < minYRound`). -/
def minBetter (p q : Pt) : Prop :=
  jsRound2 p.x < jsRound2 q.x ∨
    (jsRound2 p.x = jsRound2 q.x ∧ jsRound2 p.y < jsRound2 q.y)

/-- The scan condition replacing the running maximum: the candidate is more
top-right (`currXRound > maxXRound`, ties broken by `currYRound < maxYRound`). -/
def maxBetter (p q : Pt) : Prop :=
  jsRound2 q.x < jsRound2 p.x ∨
    (jsRound2 p.x = jsRound2 q.x ∧ jsRound2 p.y < jsRound2 q.y)

instance (p q : Pt) : Decidable (minBetter p q) :=
  inferInstanceAs (Decidable (_ ∨ _))

instance (p q : Pt) : Decidable (maxBetter p q) :=
  inferInstanceAs (Decidable (_ ∨ _))

/-- The selection scan of `#paperGetStroke`: start from `segments[0]`, walk
`segments.slice(1)` (each point carrying its `_index`), and replace the
running best whenever the strict comparison fires. -/
def selScan (better : Pt → Pt → Prop) [∀ p q, Decidable (better p q)]
    (segs : List Pt) : ℕ × Pt :=
  match segs with
  | [] => (0, default)
  | s0 :: rest =>
    (List.enumFrom 1 rest).foldl
      (fun best cur => if better cur.2 best.2 then cur else best) (0, s0)

/-- The `minX` selection (index and point). -/
def minSel (segs : List Pt) : ℕ × Pt := selScan minBetter segs

/-- The `maxX` selection (index and point). -/
def maxSel (segs : List Pt) : ℕ × Pt := selScan maxBetter segs

/-- `#paperGetStroke`: the slice of the boundary from the selected left
extreme to the selected right extreme, stitched around the seam and oriented
by the winding flag supplied by the path engine (`path.clockwise`). -/
def paperGetStroke (clockwise : Bool) (segs : List Pt) : List Pt :=
  match segs with
  | [] => []
  | _ :: _ =>
    let minI := (minSel segs).1
    let maxI := (maxSel segs).1
    if clockwise then
      if minI < maxI then (segs.drop minI).take (maxI - minI + 1)
      else segs.drop minI ++ segs.take (maxI + 1)
    else
      (if maxI < minI then (segs.drop maxI).take (minI - maxI + 1)
       else segs.drop maxI ++ segs.take (minI + 1)).reverse

/-- The signed-area sum of a closed straight-segment path; models the path
engine's area computation behind its `clockwise` winding query. -/
def shoelace (segs : List Pt) : ℚ :=
  ((segs.zip (segs.drop 1 ++ segs.take 1)).map fun pq =>
    pq.1.x * pq.2.y - pq.2.x * pq.1.y).sum

/-- The path engine's winding query: clockwise iff the signed area is
nonnegative (paper.js `isClockwise`, with the y axis pointing down). -/
def isClockwise (segs : List Pt) : Bool := decide (0 ≤ shoelace segs)

/-- The vertex of the closed boundary at cyclic position `k`. -/
def cycN (segs : List Pt) (k : ℕ) : Pt :=
  segs.getD (k % segs.length) default

/-! ## Selection-scan lemmas -/

/-- The lexicographic key ordered by the `minX` scan. -/
def keyMin (p : Pt) : ℚ ×ₗ ℚ := toLex (jsRound2 p.x, jsRound2 p.y)

/-- The lexicographic key ordered by the `maxX` scan. -/
def keyMax (p : Pt) : ℚ ×ₗ ℚ := toLex (-(jsRound2 p.x), jsRound2 p.y)

lemma minBetter_iff (p q : Pt) : minBetter p q ↔ keyMin p < keyMin q := by
  unfold minBetter keyMin
  rw [Prod.Lex.lt_iff]

lemma maxBetter_iff (p q : Pt) : maxBetter p q ↔ keyMax p < keyMax q := by
  unfold maxBetter keyMax
  rw [Prod.Lex.lt_iff]
  constructor
  · rintro (h | ⟨h1, h2⟩)
    · exact Or.inl (by simpa using h)
    · exact Or.inr ⟨by rw [h1], h2⟩
  · rintro (h | ⟨h1, h2⟩)
    · exact Or.inl (by simpa using h)
    · exact Or.inr ⟨by simpa using h1, h2⟩

section SelScanLemmas

variable (better : Pt → Pt → Prop) [∀ p q : Pt, Decidable (better p q)]

/-- The scan fold returns one of its candidates. -/
lemma foldl_sel_mem (l : List (ℕ × Pt)) (init : ℕ × Pt) :
    l.foldl (fun best cur => if better cur.2 best.2 then cur else best) init
      ∈ init :: l := by
  induction l generalizing init with
  | nil => simp
  | cons a t ih =>
    rw [List.foldl_cons]
    rcases List.mem_cons.1 (ih (if better a.2 init.2 then a else init)) with
      h | h
    · rw [h]
      split
      · exact List.mem_cons_of_mem _ (List.mem_cons_self _ _)
      · exact List.mem_cons_self _ _
    · exact List.mem_cons_of_mem _ (List.mem_cons_of_mem _ h)

variable {β : Type} [LinearOrder β] (key : Pt → β)

/-- When the comparison is a strict key order the scan fold returns a
key-minimal candidate. -/
lemma foldl_sel_le (hbk : ∀ p q : Pt, better p q ↔ key p < key q)
    (l : List (ℕ × Pt)) (init : ℕ × Pt) :
    ∀ c ∈ init :: l,
      key ((l.foldl (fun best cur => if better cur.2 best.2 then cur else best)
        init).2) ≤ key c.2 := by
  induction l generalizing init with
  | nil =>
    intro c hc
    rcases List.mem_cons.1 hc with rfl | h
    · exact le_refl _
    · cases h
  | cons a t ih =>
    intro c hc
    rw [List.foldl_cons]
    have hstep :
        key ((if better a.2 init.2 then a else init).2) ≤ key init.2 ∧
        key ((if better a.2 init.2 then a else init).2) ≤ key a.2 := by
      split
      · rename_i hb
        rw [hbk] at hb
        exact ⟨le_of_lt hb, le_refl _⟩
      · rename_i hb
        rw [hbk] at hb
        push_neg at hb
        exact ⟨le_refl _, hb⟩
    rcases List.mem_cons.1 hc with rfl | hc2
    · exact le_trans (ih _ _ (List.mem_cons_self _ _)) hstep.1
    · rcases List.mem_cons.1 hc2 with rfl | hc3
      · exact le_trans (ih _ _ (List.mem_cons_self _ _)) hstep.2
      · exact ih _ c (List.mem_cons_of_mem _ hc3)

/-- The scan returns a valid index whose entry is the returned point. -/
lemma selScan_getElem (segs : List Pt) (hne : segs ≠ []) :
    (selScan better segs).1 < segs.length ∧
    segs[(selScan better segs).1]? = some (selScan better segs).2 := by
  obtain ⟨s0, rest, rfl⟩ := List.exists_cons_of_ne_nil hne
  have hres : selScan better (s0 :: rest) =
      (List.enumFrom 1 rest).foldl
        (fun best cur => if better cur.2 best.2 then cur else best)
        (0, s0) := rfl
  rw [hres]
  rcases List.mem_cons.1 (foldl_sel_mem better (List.enumFrom 1 rest) (0, s0))
    with h | h
  · rw [h]
    exact ⟨by simp, by simp⟩
  · obtain ⟨kk, hkk, hval⟩ := List.mem_iff_getElem.1 h
    rw [List.getElem_enumFrom] at hval
    have hkk2 : kk < rest.length := by simpa using hkk
    constructor
    · rw [← hval]
      simp only [List.length_cons]
      omega
    · rw [← hval]
      rw [show 1 + kk = kk + 1 by omega, List.getElem?_cons_succ,
        List.getElem?_eq_getElem hkk2]

/-- The scan returns a point whose key is minimal among all vertices. -/
lemma selScan_min (hbk : ∀ p q : Pt, better p q ↔ key p < key q)
    (segs : List Pt) (hne : segs ≠ []) :
    ∀ p ∈ segs, key (selScan better segs).2 ≤ key p := by
  obtain ⟨s0, rest, rfl⟩ := List.exists_cons_of_ne_nil hne
  have hres : selScan better (s0 :: rest) =
      (List.enumFrom 1 rest).foldl
        (fun best cur => if better cur.2 best.2 then cur else best)
        (0, s0) := rfl
  rw [hres]
  intro p hp
  rcases List.mem_cons.1 hp with rfl | hp2
  · exact foldl_sel_le better key hbk _ _ _ (List.mem_cons_self _ _)
  · obtain ⟨kk, hkk, rfl⟩ := List.mem_iff_getElem.1 hp2
    have hmem : (1 + kk, rest[kk]) ∈ List.enumFrom 1 rest :=
      List.mem_iff_getElem.2 ⟨kk, by simpa using hkk,
        by rw [List.getElem_enumFrom]⟩
    exact foldl_sel_le better key hbk _ _ _ (List.mem_cons_of_mem _ hmem)

end SelScanLemmas

/-! ## Positional access helpers -/

lemma ext_getD (A B : List Pt) (hlen : A.length = B.length)
    (h : ∀ t, t < A.length → A.getD t default = B.getD t default) : A = B := by
  apply List.ext_getElem hlen
  intro n h1 h2
  have := h n h1
  rwa [List.getD_eq_getElem _ _ h1, List.getD_eq_getElem _ _ h2] at this

lemma getD_take (L : List Pt) (j t : ℕ) (h : t < j) :
    (L.take j).getD t default = L.getD t default := by
  rcases Nat.lt_or_ge t L.length with h2 | h2
  · rw [List.getD_eq_getElem _ _ (by simp [List.length_take]; omega),
      List.getD_eq_getElem _ _ h2, List.getElem_take]
  · rw [List.getD_eq_getElem?_getD, List.getD_eq_getElem?_getD,
      List.getElem?_eq_none (by simp [List.length_take]; omega),
      List.getElem?_eq_none (by omega)]

lemma getD_drop (L : List Pt) (i t : ℕ) :
    (L.drop i).getD t default = L.getD (i + t) default := by
  rcases Nat.lt_or_ge (i + t) L.length with h2 | h2
  · rw [List.getD_eq_getElem _ _ (by simp [List.length_drop]; omega),
      List.getD_eq_getElem _ _ h2, List.getElem_drop]
  · rw [List.getD_eq_getElem?_getD, List.getD_eq_getElem?_getD,
      List.getElem?_eq_none (by simp [List.length_drop]; omega),
      List.getElem?_eq_none (by omega)]

lemma getD_append_left (A B : List Pt) (t : ℕ) (h : t < A.length) :
    (A ++ B).getD t default = A.getD t default := by
  rw [List.getD_eq_getElem _ _ (by simp [List.length_append]; omega),
    List.getD_eq_getElem _ _ h, List.getElem_append]
  rw [dif_pos h]

lemma getD_append_right (A B : List Pt) (t : ℕ) (h : A.length ≤ t) :
    (A ++ B).getD t default = B.getD (t - A.length) default := by
  rcases Nat.lt_or_ge (t - A.length) B.length with h2 | h2
  · rw [List.getD_eq_getElem _ _ (by simp [List.length_append]; omega),
      List.getD_eq_getElem _ _ h2, List.getElem_append]
    rw [dif_neg (by omega)]
  · rw [List.getD_eq_getElem?_getD, List.getD_eq_getElem?_getD,
      List.getElem?_eq_none (by simp [List.length_append]; omega),
      List.getElem?_eq_none (by omega)]

lemma getD_reverse (L : List Pt) (t : ℕ) (h : t < L.length) :
    L.reverse.getD t default = L.getD (L.length - 1 - t) default := by
  rw [List.getD_eq_getElem _ _ (by simpa using h),
    List.getD_eq_getElem _ _ (by omega), List.getElem_reverse]

lemma getD_map_range (f : ℕ → Pt) (n t : ℕ) (h : t < n) :
    ((List.range n).map f).getD t default = f t := by
  rw [List.getD_eq_getElem _ _ (by simpa using h)]
  simp

lemma cycN_eq_of_lt (segs : List Pt) (k : ℕ) (h : k < segs.length) :
    cycN segs k = segs.getD k default := by
  unfold cycN
  rw [Nat.mod_eq_of_lt h]

lemma cycN_wrap (segs : List Pt) (k : ℕ) (h1 : segs.length ≤ k)
    (h2 : k - segs.length < segs.length) :
    cycN segs k = segs.getD (k - segs.length) default := by
  have h3 : k % segs.length = k - segs.length := by
    conv_lhs => rw [show k = (k - segs.length) + segs.length by omega]
    rw [Nat.add_mod_right, Nat.mod_eq_of_lt h2]
  unfold cycN
  rw [h3]

/-! ## Characterizing the extracted stroke as a cyclic slice -/

/-- Clockwise case: the stroke walks the boundary forward from the selected
left extreme, for `(maxI - minI) mod n` steps (a full loop when the two
selections coincide). -/
lemma stroke_cw_eq (segs : List Pt) (hne : segs ≠ []) :
    paperGetStroke true segs =
      (List.range ((if (minSel segs).1 = (maxSel segs).1 then segs.length
        else ((maxSel segs).1 + segs.length - (minSel segs).1) %
          segs.length) + 1)).map
        fun t => cycN segs ((minSel segs).1 + t) := by
  cases segs with
  | nil => exact absurd rfl hne
  | cons s0 rest =>
    have hln : (minSel (s0 :: rest)).1 < (s0 :: rest).length :=
      (selScan_getElem minBetter (s0 :: rest) (by simp)).1
    have hrn : (maxSel (s0 :: rest)).1 < (s0 :: rest).length :=
      (selScan_getElem maxBetter (s0 :: rest) (by simp)).1
    set l := (minSel (s0 :: rest)).1 with hldef
    set r := (maxSel (s0 :: rest)).1 with hrdef
    set n := (s0 :: rest).length with hndef
    have hred : paperGetStroke true (s0 :: rest) =
        (if l < r then ((s0 :: rest).drop l).take (r - l + 1)
         else (s0 :: rest).drop l ++ (s0 :: rest).take (r + 1)) := rfl
    rw [hred]
    rcases Nat.lt_or_ge l r with hlr | hlr
    · rw [if_pos hlr]
      have hM : (if l = r then n else (r + n - l) % n) = r - l := by
        rw [if_neg (by omega), show r + n - l = (r - l) + n by omega,
          Nat.add_mod_right, Nat.mod_eq_of_lt (by omega)]
      rw [hM]
      apply ext_getD
      · simp only [List.length_take, List.length_drop, List.length_map,
          List.length_range]
        omega
      · intro t ht
        simp only [List.length_take, List.length_drop] at ht
        rw [getD_take _ _ _ (by omega), getD_drop,
          getD_map_range _ _ _ (by omega), cycN_eq_of_lt _ _ (by omega)]
    · rw [if_neg (by omega)]
      have hM : (if l = r then n else (r + n - l) % n) = n - l + r := by
        rcases Nat.eq_or_lt_of_le hlr with heq | hlt
        · rw [if_pos heq.symm]
          omega
        · rw [if_neg (by omega), Nat.mod_eq_of_lt (by omega)]
          omega
      rw [hM]
      apply ext_getD
      · simp only [List.length_append, List.length_take, List.length_drop,
          List.length_map, List.length_range]
        omega
      · intro t ht
        simp only [List.length_append, List.length_take, List.length_drop]
          at ht
        rw [getD_map_range _ _ _ (by omega)]
        rcases Nat.lt_or_ge t (n - l) with hc | hc
        · rw [getD_append_left _ _ _ (by simp only [List.length_drop]; omega),
            getD_drop, cycN_eq_of_lt _ _ (by omega)]
        · rw [getD_append_right _ _ _
            (by simp only [List.length_drop]; omega),
            getD_take _ _ _ (by simp only [List.length_drop]; omega),
            cycN_wrap _ _ (by omega) (by omega)]
          simp only [List.length_drop]
          rw [show t - (n - l) = l + t - n by omega]

/-- Counter-clockwise case: the slice is taken with the min/max roles
swapped and reversed, so the stroke walks the boundary backward from the
selected left extreme — the same arc as in the clockwise case. -/
lemma stroke_ccw_eq (segs : List Pt) (hne : segs ≠ []) :
    paperGetStroke false segs =
      (List.range ((if (minSel segs).1 = (maxSel segs).1 then segs.length
        else ((minSel segs).1 + segs.length - (maxSel segs).1) %
          segs.length) + 1)).map
        fun t => cycN segs ((minSel segs).1 + segs.length - t) := by
  cases segs with
  | nil => exact absurd rfl hne
  | cons s0 rest =>
    have hln : (minSel (s0 :: rest)).1 < (s0 :: rest).length :=
      (selScan_getElem minBetter (s0 :: rest) (by simp)).1
    have hrn : (maxSel (s0 :: rest)).1 < (s0 :: rest).length :=
      (selScan_getElem maxBetter (s0 :: rest) (by simp)).1
    set l := (minSel (s0 :: rest)).1 with hldef
    set r := (maxSel (s0 :: rest)).1 with hrdef
    set n := (s0 :: rest).length with hndef
    have hred : paperGetStroke false (s0 :: rest) =
        (if r < l then ((s0 :: rest).drop r).take (l - r + 1)
         else (s0 :: rest).drop r ++ (s0 :: rest).take (l + 1)).reverse := rfl
    rw [hred]
    rcases Nat.lt_or_ge r l with hrl | hrl
    · rw [if_pos hrl]
      have hM : (if l = r then n else (l + n - r) % n) = l - r := by
        rw [if_neg (by omega), show l + n - r = (l - r) + n by omega,
          Nat.add_mod_right, Nat.mod_eq_of_lt (by omega)]
      rw [hM]
      apply ext_getD
      · simp only [List.length_reverse, List.length_take, List.length_drop,
          List.length_map, List.length_range]
        omega
      · intro t ht
        simp only [List.length_reverse, List.length_take, List.length_drop]
          at ht
        rw [getD_reverse _ _ (by simp only [List.length_take, List.length_drop]; omega)]
        simp only [List.length_take, List.length_drop]
        rw [getD_take _ _ _ (by omega), getD_drop,
          getD_map_range _ _ _ (by omega),
          cycN_wrap _ _ (by omega) (by omega)]
        rw [show r + (min (l - r + 1) (n - r) - 1 - t) = l - t by omega,
          show l + n - t - n = l - t by omega]
    · rw [if_neg (by omega)]
      have hM : (if l = r then n else (l + n - r) % n) = n - r + l := by
        rcases Nat.eq_or_lt_of_le hrl with heq | hlt
        · rw [if_pos heq]
          omega
        · rw [if_neg (by omega), Nat.mod_eq_of_lt (by omega)]
          omega
      rw [hM]
      apply ext_getD
      · simp only [List.length_reverse, List.length_append, List.length_take,
          List.length_drop, List.length_map, List.length_range]
        omega
      · intro t ht
        simp only [List.length_reverse, List.length_append, List.length_take,
          List.length_drop] at ht
        rw [getD_reverse _ _ (by simp only [List.length_append, List.length_take, List.length_drop]; omega)]
        simp only [List.length_append, List.length_take, List.length_drop]
        rw [getD_map_range _ _ _ (by omega)]
        rcases Nat.lt_or_ge t (l + 1) with hc | hc
        · rw [getD_append_right _ _ _ (by simp only [List.length_drop]; omega)]
          simp only [List.length_drop]
          rw [getD_take _ _ _ (by omega),
            cycN_wrap _ _ (by omega) (by omega)]
          rw [show n - r + min (l + 1) n - 1 - t - (n - r) = l - t by omega,
            show l + n - t - n = l - t by omega]
        · rw [getD_append_left _ _ _ (by simp only [List.length_drop]; omega)]
          rw [getD_drop, cycN_eq_of_lt _ _ (by omega)]
          rw [show r + (n - r + min (l + 1) n - 1 - t) = l + n - t by omega]

/-! ## Theorems: C4 -/

lemma minSel_lt (segs : List Pt) (hne : segs ≠ []) :
    (minSel segs).1 < segs.length :=
  (selScan_getElem minBetter segs hne).1

lemma maxSel_lt (segs : List Pt) (hne : segs ≠ []) :
    (maxSel segs).1 < segs.length :=
  (selScan_getElem maxBetter segs hne).1

lemma minSel_getD (segs : List Pt) (hne : segs ≠ []) :
    segs.getD (minSel segs).1 default = (minSel segs).2 := by
  unfold minSel
  rw [List.getD_eq_getElem?_getD, (selScan_getElem minBetter segs hne).2]
  rfl

lemma maxSel_getD (segs : List Pt) (hne : segs ≠ []) :
    segs.getD (maxSel segs).1 default = (maxSel segs).2 := by
  unfold maxSel
  rw [List.getD_eq_getElem?_getD, (selScan_getElem maxBetter segs hne).2]
  rfl

lemma head?_map_range (f : ℕ → Pt) (n : ℕ) (h : 0 < n) :
    ((List.range n).map f).head? = some (f 0) := by
  rw [List.head?_eq_getElem?, List.getElem?_eq_getElem (by simpa using h)]
  simp

lemma getLast?_map_range (f : ℕ → Pt) (n : ℕ) (h : 0 < n) :
    ((List.range n).map f).getLast? = some (f (n - 1)) := by
  rw [List.getLast?_eq_getElem?]
  rw [List.getElem?_eq_getElem
    (by simp only [List.length_map, List.length_range]; omega)]
  simp

/-- C4 (amended): `extractTop` on an empty vertex list returns the empty
stroke; on a nonempty boundary (either winding flag) the result is
nonempty, its first element is the scan's left extreme (minimal rounded `x`,
ties broken by minimal rounded `y`) and its last element is the scan's right
extreme (maximal rounded `x`, ties broken by minimal rounded `y`).  The
original claim additionally required the output to be ordered left-to-right
by `x`; that fails on the code (see the counterexample), since the slice
follows the boundary arc, which need not be `x`-monotone. -/
theorem extractTop_endpoints :
    (∀ b : Bool, paperGetStroke b [] = []) ∧
    (∀ (b : Bool) (segs : List Pt), segs ≠ [] →
      paperGetStroke b segs ≠ [] ∧
      (paperGetStroke b segs).head? = some (minSel segs).2 ∧
      (paperGetStroke b segs).getLast? = some (maxSel segs).2 ∧
      (∀ p ∈ segs, ¬ minBetter p (minSel segs).2) ∧
      (∀ p ∈ segs, ¬ maxBetter p (maxSel segs).2)) := by
  constructor
  · intro b
    cases b <;> rfl
  · intro b segs hne
    have hln := minSel_lt segs hne
    have hrn := maxSel_lt segs hne
    refine ⟨?_, ?_, ?_, ?_, ?_⟩
    · cases b
      · rw [stroke_ccw_eq segs hne]
        apply List.ne_nil_of_length_pos
        simp
      · rw [stroke_cw_eq segs hne]
        apply List.ne_nil_of_length_pos
        simp
    · cases b
      · rw [stroke_ccw_eq segs hne, head?_map_range _ _ (by omega)]
        rw [cycN_wrap _ _ (by omega) (by omega)]
        rw [show (minSel segs).1 + segs.length - 0 - segs.length =
          (minSel segs).1 by omega]
        rw [minSel_getD segs hne]
      · rw [stroke_cw_eq segs hne, head?_map_range _ _ (by omega)]
        rw [show (minSel segs).1 + 0 = (minSel segs).1 by omega,
          cycN_eq_of_lt _ _ hln, minSel_getD segs hne]
    · cases b
      · rw [stroke_ccw_eq segs hne, getLast?_map_range _ _ (by omega),
          Nat.add_sub_cancel]
        rcases Nat.lt_trichotomy (minSel segs).1 (maxSel segs).1 with h | h | h
        · rw [if_neg (by omega), Nat.mod_eq_of_lt (by omega)]
          rw [show (minSel segs).1 + segs.length -
            ((minSel segs).1 + segs.length - (maxSel segs).1) =
            (maxSel segs).1 by omega]
          rw [cycN_eq_of_lt _ _ hrn, maxSel_getD segs hne]
        · rw [if_pos h]
          rw [show (minSel segs).1 + segs.length - segs.length =
            (minSel segs).1 by omega]
          rw [cycN_eq_of_lt _ _ hln, h, maxSel_getD segs hne]
        · rw [if_neg (by omega),
            show (minSel segs).1 + segs.length - (maxSel segs).1 =
              ((minSel segs).1 - (maxSel segs).1) + segs.length by omega,
            Nat.add_mod_right, Nat.mod_eq_of_lt (by omega)]
          rw [show (minSel segs).1 + segs.length -
            ((minSel segs).1 - (maxSel segs).1) =
            (maxSel segs).1 + segs.length by omega]
          rw [cycN_wrap _ _ (by omega) (by omega),
            Nat.add_sub_cancel, maxSel_getD segs hne]
      · rw [stroke_cw_eq segs hne, getLast?_map_range _ _ (by omega),
          Nat.add_sub_cancel]
        rcases Nat.lt_trichotomy (minSel segs).1 (maxSel segs).1 with h | h | h
        · rw [if_neg (by omega),
            show (maxSel segs).1 + segs.length - (minSel segs).1 =
              ((maxSel segs).1 - (minSel segs).1) + segs.length by omega,
            Nat.add_mod_right, Nat.mod_eq_of_lt (by omega)]
          rw [show (minSel segs).1 + ((maxSel segs).1 - (minSel segs).1) =
            (maxSel segs).1 by omega]
          rw [cycN_eq_of_lt _ _ hrn, maxSel_getD segs hne]
        · rw [if_pos h, cycN_wrap _ _ (by omega) (by omega),
            Nat.add_sub_cancel, h, maxSel_getD segs hne]
        · rw [if_neg (by omega), Nat.mod_eq_of_lt (by omega)]
          rw [show (minSel segs).1 + ((maxSel segs).1 + segs.length -
            (minSel segs).1) = (maxSel segs).1 + segs.length by omega]
          rw [cycN_wrap _ _ (by omega) (by omega),
            Nat.add_sub_cancel, maxSel_getD segs hne]
    · intro p hp
      rw [minBetter_iff]
      exact not_lt.2 (selScan_min minBetter keyMin minBetter_iff segs hne p hp)
    · intro p hp
      rw [maxBetter_iff]
      exact not_lt.2 (selScan_min maxBetter keyMax maxBetter_iff segs hne p hp)

/-! ## Theorems: C5 -/

lemma mod_flip (n a t : ℕ) (ha : a < n) (ht : t ≤ n) :
    n - 1 - ((a + (n - t)) % n) = ((n - 1 - a) + t) % n := by
  rcases le_or_lt t a with h | h
  · rw [show a + (n - t) = (a - t) + n by omega, Nat.add_mod_right,
      Nat.mod_eq_of_lt (by omega), Nat.mod_eq_of_lt (by omega)]
    omega
  · rw [Nat.mod_eq_of_lt (by omega),
      show (n - 1 - a) + t = (t - a - 1) + n by omega,
      Nat.add_mod_right, Nat.mod_eq_of_lt (by omega)]
    omega

lemma mod_sub_transfer (n k x y : ℕ) (_hx : x < n) (hy : y < n) :
    (x + n - y) % n = (((x + k) % n) + n - ((y + k) % n)) % n := by
  have hn : 0 < n := by omega
  have ha : (x + k) % n < n := Nat.mod_lt _ hn
  have hb : (y + k) % n < n := Nat.mod_lt _ hn
  have ha' : (x + k) % n ≡ x + k [MOD n] := Nat.mod_modEq (x + k) n
  have hb' : (y + k) % n ≡ y + k [MOD n] := Nat.mod_modEq (y + k) n
  have key : x + n - y ≡ ((x + k) % n) + n - ((y + k) % n) [MOD n] := by
    apply Nat.ModEq.add_right_cancel' (y + ((y + k) % n) + k)
    have e1 : (x + n - y) + (y + ((y + k) % n) + k) =
        (x + k) + n + ((y + k) % n) := by omega
    have e2 : (((x + k) % n) + n - ((y + k) % n)) + (y + ((y + k) % n) + k) =
        ((x + k) % n) + n + (y + k) := by omega
    rw [e1, e2]
    have c1 : (x + k) + n + ((y + k) % n) ≡
        ((x + k) % n) + n + ((y + k) % n) [MOD n] :=
      Nat.ModEq.add_right _ (Nat.ModEq.add_right _ ha'.symm)
    have c2 : ((x + k) % n) + n + ((y + k) % n) ≡
        ((x + k) % n) + n + (y + k) [MOD n] :=
      Nat.ModEq.add_left _ hb'
    exact c1.trans c2
  exact key

/-- C5 (amended): `extractTop` is winding-independent on boundaries whose
rounded coordinate pairs are pairwise distinct: for any such boundary, the
counter-clockwise traversal of the same vertex cycle (the reversal, started
at an arbitrary vertex) produces the same point sequence as the clockwise
traversal, because the slice is taken with the min/max roles swapped and
reversed.  The original claim had no distinctness hypothesis; two distinct
vertices sharing both rounded coordinates make the two scans pick different
vertices (see the counterexample). -/
theorem stroke_winding_independent (segs : List Pt) (k : ℕ) (hne : segs ≠ [])
    (hkeys : (segs.map fun p => (jsRound2 p.x, jsRound2 p.y)).Nodup) :
    paperGetStroke false (segs.reverse.rotate k) = paperGetStroke true segs := by
  set q := segs.reverse.rotate k with hq
  have h0 : 0 < segs.length := List.length_pos.2 hne
  have hqlen : q.length = segs.length := by
    rw [hq, List.length_rotate, List.length_reverse]
  have hqne : q ≠ [] := by
    apply List.ne_nil_of_length_pos
    omega
  have hperm : q.Perm segs := by
    rw [hq]
    exact (List.rotate_perm _ _).trans (List.reverse_perm segs)
  have hqget : ∀ i, i < segs.length →
      q.getD i default =
        segs.getD (segs.length - 1 - ((i + k) % segs.length)) default := by
    intro i hi
    have hi2 : i < q.length := by omega
    rw [List.getD_eq_getElem _ _ hi2]
    have hmlt : (i + k) % segs.length < segs.length := Nat.mod_lt _ h0
    rw [List.getD_eq_getElem _ _ (by omega)]
    simp only [hq, List.getElem_rotate, List.getElem_reverse,
      List.length_reverse]
  have hinj : ∀ ⦃a : Pt⦄, a ∈ segs → ∀ ⦃b : Pt⦄, b ∈ segs →
      (jsRound2 a.x, jsRound2 a.y) = (jsRound2 b.x, jsRound2 b.y) → a = b :=
    List.inj_on_of_nodup_map hkeys
  have hnod : segs.Nodup := List.Nodup.of_map _ hkeys
  have hl'n : (minSel q).1 < segs.length := by
    have := minSel_lt q hqne
    omega
  have hr'n : (maxSel q).1 < segs.length := by
    have := maxSel_lt q hqne
    omega
  have hln : (minSel segs).1 < segs.length := minSel_lt segs hne
  have hrn : (maxSel segs).1 < segs.length := maxSel_lt segs hne
  -- the two scans select the same extreme vertices
  have hmemS : (minSel segs).2 ∈ segs :=
    List.getElem?_mem (selScan_getElem minBetter segs hne).2
  have hmemQ : (minSel q).2 ∈ q :=
    List.getElem?_mem (selScan_getElem minBetter q hqne).2
  have hmemQS : (minSel q).2 ∈ segs := hperm.subset hmemQ
  have hmemSQ : (minSel segs).2 ∈ q := hperm.symm.subset hmemS
  have hLval : (minSel q).2 = (minSel segs).2 := by
    have le1 : keyMin (minSel segs).2 ≤ keyMin (minSel q).2 :=
      selScan_min minBetter keyMin minBetter_iff segs hne _ hmemQS
    have le2 : keyMin (minSel q).2 ≤ keyMin (minSel segs).2 :=
      selScan_min minBetter keyMin minBetter_iff q hqne _ hmemSQ
    exact hinj hmemQS hmemS (toLex.injective (le_antisymm le2 le1))
  have hmemSx : (maxSel segs).2 ∈ segs :=
    List.getElem?_mem (selScan_getElem maxBetter segs hne).2
  have hmemQx : (maxSel q).2 ∈ q :=
    List.getElem?_mem (selScan_getElem maxBetter q hqne).2
  have hmemQSx : (maxSel q).2 ∈ segs := hperm.subset hmemQx
  have hmemSQx : (maxSel segs).2 ∈ q := hperm.symm.subset hmemSx
  have hRval : (maxSel q).2 = (maxSel segs).2 := by
    have le1 : keyMax (maxSel segs).2 ≤ keyMax (maxSel q).2 :=
      selScan_min maxBetter keyMax maxBetter_iff segs hne _ hmemQSx
    have le2 : keyMax (maxSel q).2 ≤ keyMax (maxSel segs).2 :=
      selScan_min maxBetter keyMax maxBetter_iff q hqne _ hmemSQx
    have hkeq : keyMax (maxSel q).2 = keyMax (maxSel segs).2 :=
      le_antisymm le2 le1
    have hpair := toLex.injective hkeq
    have hxy : (jsRound2 (maxSel q).2.x, jsRound2 (maxSel q).2.y) =
        (jsRound2 (maxSel segs).2.x, jsRound2 (maxSel segs).2.y) := by
      have h1 := congrArg Prod.fst hpair
      have h2 := congrArg Prod.snd hpair
      simp only at h1 h2
      have h1x : jsRound2 (maxSel q).2.x = jsRound2 (maxSel segs).2.x := by
        have := h1
        simp only [neg_inj] at this
        exact this
      rw [Prod.mk.injEq]
      exact ⟨h1x, h2⟩
    exact hinj hmemQSx hmemSx hxy
  -- translate the selected indices across the traversal
  have hlidx : segs.length - 1 - (((minSel q).1 + k) % segs.length) =
      (minSel segs).1 := by
    have h1 : q.getD (minSel q).1 default = (minSel segs).2 := by
      rw [minSel_getD q hqne, hLval]
    have h2 := hqget (minSel q).1 hl'n
    have h3 : segs.getD (segs.length - 1 -
        (((minSel q).1 + k) % segs.length)) default =
        segs.getD (minSel segs).1 default := by
      rw [← h2, h1, minSel_getD segs hne]
    have hmlt : ((minSel q).1 + k) % segs.length < segs.length :=
      Nat.mod_lt _ h0
    have hi1 : segs.length - 1 - (((minSel q).1 + k) % segs.length) <
        segs.length := by omega
    rw [List.getD_eq_getElem _ _ hi1, List.getD_eq_getElem _ _ hln] at h3
    exact (List.Nodup.getElem_inj_iff hnod).1 h3
  have hridx : segs.length - 1 - (((maxSel q).1 + k) % segs.length) =
      (maxSel segs).1 := by
    have h1 : q.getD (maxSel q).1 default = (maxSel segs).2 := by
      rw [maxSel_getD q hqne, hRval]
    have h2 := hqget (maxSel q).1 hr'n
    have h3 : segs.getD (segs.length - 1 -
        (((maxSel q).1 + k) % segs.length)) default =
        segs.getD (maxSel segs).1 default := by
      rw [← h2, h1, maxSel_getD segs hne]
    have hmlt : ((maxSel q).1 + k) % segs.length < segs.length :=
      Nat.mod_lt _ h0
    have hi1 : segs.length - 1 - (((maxSel q).1 + k) % segs.length) <
        segs.length := by omega
    rw [List.getD_eq_getElem _ _ hi1, List.getD_eq_getElem _ _ hrn] at h3
    exact (List.Nodup.getElem_inj_iff hnod).1 h3
  -- the two slices have the same length
  have hamlt : ((minSel q).1 + k) % segs.length < segs.length :=
    Nat.mod_lt _ h0
  have hbmlt : ((maxSel q).1 + k) % segs.length < segs.length :=
    Nat.mod_lt _ h0
  have hiff : (minSel q).1 = (maxSel q).1 ↔
      (minSel segs).1 = (maxSel segs).1 := by
    constructor
    · intro h
      rw [← hlidx, ← hridx, h]
    · intro h
      have hab : ((minSel q).1 + k) % segs.length =
          ((maxSel q).1 + k) % segs.length := by
        have h1 := hlidx
        have h2 := hridx
        rw [h] at h1
        omega
      have := Nat.ModEq.add_right_cancel' k (hab : _ ≡ _ [MOD segs.length])
      have h1 : (minSel q).1 % segs.length = (maxSel q).1 % segs.length := this
      rwa [Nat.mod_eq_of_lt hl'n, Nat.mod_eq_of_lt hr'n] at h1
  rw [stroke_ccw_eq q hqne, stroke_cw_eq segs hne]
  simp only [hqlen]
  have hM : (if (minSel q).1 = (maxSel q).1 then segs.length
      else ((minSel q).1 + segs.length - (maxSel q).1) % segs.length) =
      (if (minSel segs).1 = (maxSel segs).1 then segs.length
      else ((maxSel segs).1 + segs.length - (minSel segs).1) % segs.length) := by
    by_cases hc : (minSel q).1 = (maxSel q).1
    · rw [if_pos hc, if_pos (hiff.1 hc)]
    · rw [if_neg hc, if_neg (fun h => hc (hiff.2 h))]
      rw [← hlidx, ← hridx]
      rw [show (segs.length - 1 - (((maxSel q).1 + k) % segs.length)) +
          segs.length -
          (segs.length - 1 - (((minSel q).1 + k) % segs.length)) =
          (((minSel q).1 + k) % segs.length) + segs.length -
          (((maxSel q).1 + k) % segs.length) by omega]
      exact mod_sub_transfer segs.length k (minSel q).1 (maxSel q).1 hl'n hr'n
  rw [hM]
  have hMle : (if (minSel segs).1 = (maxSel segs).1 then segs.length
      else ((maxSel segs).1 + segs.length - (minSel segs).1) % segs.length) ≤
      segs.length := by
    split
    · exact le_refl _
    · exact le_of_lt (Nat.mod_lt _ h0)
  apply List.map_congr_left
  intro t ht
  rw [List.mem_range] at ht
  have htn : t ≤ segs.length := by omega
  -- evaluate the counter-clockwise entry through the traversal relation
  have hcyc : ∀ s : ℕ, cycN q s =
      segs.getD (segs.length - 1 - ((s + k) % segs.length)) default := by
    intro s
    unfold cycN
    rw [hqlen, hqget (s % segs.length) (Nat.mod_lt _ h0), Nat.mod_add_mod]
  rw [hcyc ((minSel q).1 + segs.length - t)]
  rw [show (minSel q).1 + segs.length - t + k =
    ((minSel q).1 + k) + (segs.length - t) by omega]
  unfold cycN
  have hidx : segs.length - 1 -
      (((minSel q).1 + k + (segs.length - t)) % segs.length) =
      ((minSel segs).1 + t) % segs.length :=
    calc segs.length - 1 -
        (((minSel q).1 + k + (segs.length - t)) % segs.length)
        = segs.length - 1 - (((((minSel q).1 + k) % segs.length) +
          (segs.length - t)) % segs.length) := by rw [Nat.mod_add_mod]
      _ = ((segs.length - 1 - (((minSel q).1 + k) % segs.length)) + t) %
          segs.length :=
        mod_flip segs.length (((minSel q).1 + k) % segs.length) t hamlt htn
      _ = ((minSel segs).1 + t) % segs.length := by rw [hlidx]
  rw [hidx]

/-- Concrete check of `extractTop_endpoints` on a clockwise triangle. -/
theorem extractTop_endpoints_witness :
    ([(⟨0, 0⟩ : Pt), ⟨4, 0⟩, ⟨2, 3⟩] ≠ []) ∧
    (paperGetStroke true [(⟨0, 0⟩ : Pt), ⟨4, 0⟩, ⟨2, 3⟩] ≠ [] ∧
      (paperGetStroke true [(⟨0, 0⟩ : Pt), ⟨4, 0⟩, ⟨2, 3⟩]).head? =
        some (minSel [(⟨0, 0⟩ : Pt), ⟨4, 0⟩, ⟨2, 3⟩]).2 ∧
      (paperGetStroke true [(⟨0, 0⟩ : Pt), ⟨4, 0⟩, ⟨2, 3⟩]).getLast? =
        some (maxSel [(⟨0, 0⟩ : Pt), ⟨4, 0⟩, ⟨2, 3⟩]).2 ∧
      (∀ p ∈ [(⟨0, 0⟩ : Pt), ⟨4, 0⟩, ⟨2, 3⟩],
        ¬ minBetter p (minSel [(⟨0, 0⟩ : Pt), ⟨4, 0⟩, ⟨2, 3⟩]).2) ∧
      (∀ p ∈ [(⟨0, 0⟩ : Pt), ⟨4, 0⟩, ⟨2, 3⟩],
        ¬ maxBetter p (maxSel [(⟨0, 0⟩ : Pt), ⟨4, 0⟩, ⟨2, 3⟩]).2)) :=
  ⟨by simp, extractTop_endpoints.2 true [⟨0, 0⟩, ⟨4, 0⟩, ⟨2, 3⟩] (by simp)⟩

/-- C4 counterexample: on the clockwise simple pentagon
`(0,8), (10,0), (9,2), (16,8), (8,16)` the extracted stroke is
`(0,8), (10,0), (9,2), (16,8)`, whose `x` coordinates `0, 10, 9, 16` are not
ordered left-to-right: the slice follows the boundary arc between the
extremes, which is not `x`-monotone. -/
theorem extractTop_not_x_sorted :
    isClockwise [(⟨0, 8⟩ : Pt), ⟨10, 0⟩, ⟨9, 2⟩, ⟨16, 8⟩, ⟨8, 16⟩] = true ∧
    ¬ List.Chain' (fun p q : Pt => p.x ≤ q.x)
      (paperGetStroke true
        [(⟨0, 8⟩ : Pt), ⟨10, 0⟩, ⟨9, 2⟩, ⟨16, 8⟩, ⟨8, 16⟩]) :=
  ⟨by norm_num [isClockwise, shoelace],
   by norm_num [paperGetStroke, minSel, maxSel, selScan, minBetter,
     maxBetter, jsRound2, List.chain'_cons]⟩

/-- Concrete check of `stroke_winding_independent` on a clockwise square,
with the reversed traversal started one vertex later. -/
theorem stroke_winding_independent_witness :
    paperGetStroke false
      (([(⟨0, 0⟩ : Pt), ⟨10, 0⟩, ⟨10, 10⟩, ⟨0, 10⟩]).reverse.rotate 1) =
      paperGetStroke true [(⟨0, 0⟩ : Pt), ⟨10, 0⟩, ⟨10, 10⟩, ⟨0, 10⟩] :=
  stroke_winding_independent [⟨0, 0⟩, ⟨10, 0⟩, ⟨10, 10⟩, ⟨0, 10⟩] 1
    (by simp) (by norm_num [jsRound2, List.nodup_cons, Prod.ext_iff])

/-- C5 counterexample: a simple clockwise quadrilateral with two distinct
vertices whose coordinates agree after rounding to 2 decimal places
(`(0, 5)` and `(0.004, 5.004)`).  The clockwise scan keeps the first
rounded-tie vertex while the reversed traversal's scan keeps the other, so
the two tracings return different point sequences (lengths 2 and 3). -/
theorem stroke_winding_dependent_cex :
    isClockwise [(⟨0, 5⟩ : Pt), ⟨10, 0⟩, ⟨10, 10⟩, ⟨1/250, 5 + 1/250⟩]
      = true ∧
    [(⟨1/250, 5 + 1/250⟩ : Pt), ⟨10, 10⟩, ⟨10, 0⟩, ⟨0, 5⟩] =
      ([(⟨0, 5⟩ : Pt), ⟨10, 0⟩, ⟨10, 10⟩, ⟨1/250, 5 + 1/250⟩]).reverse ∧
    isClockwise [(⟨1/250, 5 + 1/250⟩ : Pt), ⟨10, 10⟩, ⟨10, 0⟩, ⟨0, 5⟩]
      = false ∧
    paperGetStroke false
      [(⟨1/250, 5 + 1/250⟩ : Pt), ⟨10, 10⟩, ⟨10, 0⟩, ⟨0, 5⟩] ≠
    paperGetStroke true
      [(⟨0, 5⟩ : Pt), ⟨10, 0⟩, ⟨10, 10⟩, ⟨1/250, 5 + 1/250⟩] := by
  refine ⟨by norm_num [isClockwise, shoelace], by norm_num,
    by norm_num [isClockwise, shoelace], ?_⟩
  have h1 : paperGetStroke false
      [(⟨1/250, 5 + 1/250⟩ : Pt), ⟨10, 10⟩, ⟨10, 0⟩, ⟨0, 5⟩] =
      [⟨1/250, 5 + 1/250⟩, ⟨0, 5⟩, ⟨10, 0⟩] := by
    norm_num [paperGetStroke, minSel, maxSel, selScan, minBetter, maxBetter,
      jsRound2]
  have h2 : paperGetStroke true
      [(⟨0, 5⟩ : Pt), ⟨10, 0⟩, ⟨10, 10⟩, ⟨1/250, 5 + 1/250⟩] =
      [⟨0, 5⟩, ⟨10, 0⟩] := by
    norm_num [paperGetStroke, minSel, maxSel, selScan, minBetter, maxBetter,
      jsRound2]
  rw [h1, h2]
  intro h
  have := congrArg List.length h
  simp at this

end RidgeMap
